import Mathlib

/-!
Verification of the TheDogAPI client (`src/api.js`): the normalizer
`normalizeImageObj`, the ban-list matcher `isBanned`, and the bounded
retry loop `fetchRandomDog`.  The embedding follows the batch variant of
the module (the one that scans a batch of five candidates, enriches
attribute-incomplete candidates by a secondary detail lookup, and keeps
the first incomplete non-excluded candidate as a fallback).

JavaScript values are modelled as follows: a string field that may be
null or undefined is an `Option String` (with the empty string kept
distinct, since JavaScript treats it as falsy but present); a field that
must be an array to be used is an `Option (List _)` (`none` models both
an absent field and a non-array value, which the code guards with
`Array.isArray`); objects whose key set matters (`attributes`, the ban
list) are association lists.  The network is an oracle (`Env`) giving
the outcome of each primary images/search call, indexed by attempt
number, and of each enrichment detail call, indexed by attempt number
and batch position.  The interpreter `fetchRandomDog` returns the
settled result together with the number of primary calls issued and the
trace of enrichment calls, so that the call-budget claims are statable.
Wall-clock behaviour (the 8000 ms timeout guard and the 300 ms backoff
delays) is not modelled; it does not affect which value the promise
settles with.
-/

/-- A raw weight sub-object of a breed: `{ imperial, metric }`. -/
structure Weight where
  imperial : Option String
  metric : Option String
deriving DecidableEq

/-- A raw breed sub-object as delivered by the source API. -/
structure Breed where
  id : Option String
  name : Option String
  temperament : Option String
  life_span : Option String
  weight : Option Weight
deriving DecidableEq

/-- A raw image object as delivered by the source API.  `breeds = none`
models an absent or non-array `breeds` field. -/
structure RawImage where
  id : Option String
  url : Option String
  breeds : Option (List Breed)
deriving DecidableEq

/-- JavaScript `a || b` on nullable strings: the empty string is falsy. -/
def jsStrOr (a b : Option String) : Option String :=
  match a with
  | some s => if s = "" then b else some s
  | none => b

/-- JavaScript `x || the-empty-string` on a nullable string. -/
def attrOr (o : Option String) : String :=
  match o with
  | some s => s
  | none => ""

/-- The weight attribute expression of the normalizer:
`(breedObj.weight && (breedObj.weight.imperial || breedObj.weight.metric)) || empty`. -/
def weightStr (w : Option Weight) : String :=
  match w with
  | none => ""
  | some wt => attrOr (jsStrOr wt.imperial wt.metric)

/-- The normalized shape `{ id, imageUrl, attributes, hasBreed }`
returned by `normalizeImageObj`.  `attributes` is kept as an
association list so that its key set is part of the model. -/
structure CanonicalRecord where
  id : Option String
  imageUrl : Option String
  attributes : List (String × String)
  hasBreed : Bool
deriving DecidableEq

/-- `normalizeImageObj(imgObj)` from `src/api.js`: null input maps to
null; otherwise the first element of the `breeds` array (when the field
is an array and non-empty) supplies the four attributes, each defaulted
to the empty string when missing. -/
def normalizeImageObj : Option RawImage → Option CanonicalRecord
  | none => none
  | some img =>
    let breedObj : Option Breed := img.breeds.bind List.head?
    let id := jsStrOr img.id (jsStrOr (breedObj.bind Breed.id) none)
    let imageUrl := jsStrOr img.url none
    let attributes : List (String × String) :=
      [("breed", match breedObj with | some b => attrOr b.name | none => ""),
       ("temperament", match breedObj with | some b => attrOr b.temperament | none => ""),
       ("life_span", match breedObj with | some b => attrOr b.life_span | none => ""),
       ("weight", match breedObj with | some b => weightStr b.weight | none => "")]
    some ⟨id, imageUrl, attributes, breedObj.isSome⟩

/-- An arbitrary item handed to `isBanned`: its `attributes` field may
be absent (`none`), and when present is an arbitrary string map. -/
structure Item where
  attributes : Option (List (String × String))
deriving DecidableEq

/-- View a normalized record as an `isBanned` argument. -/
def CanonicalRecord.toItem (r : CanonicalRecord) : Item :=
  ⟨some r.attributes⟩

/-- Key lookup in a JavaScript-object-as-association-list:
`none` models an absent key (an undefined property read). -/
def lookupStr (attrs : List (String × String)) (k : String) : Option String :=
  (attrs.find? (fun p => p.1 == k)).map (fun p => p.2)

/-- A ban list: a JavaScript object mapping attribute keys to arrays of
banned values.  A key bound to a non-array value behaves like an absent
key (the code guards every read with `Array.isArray`), so only
array-valued entries are modelled. -/
abbrev BanList := List (String × List String)

/-- `banList[key]` restricted to array values. -/
def getBan (banList : BanList) (k : String) : Option (List String) :=
  (banList.find? (fun p => p.1 == k)).map (fun p => p.2)

/-- ASCII lower-casing of one character, the case mapping relevant to
the data handled here (JavaScript `toLowerCase` restricted to ASCII). -/
def jsCharLower (c : Char) : Char :=
  if 65 ≤ c.toNat ∧ c.toNat ≤ 90 then Char.ofNat (c.toNat + 32) else c

/-- JavaScript `toLowerCase` over the characters of a string. -/
def strLower (s : String) : String := ⟨s.data.map jsCharLower⟩

/-- The whitespace characters stripped by JavaScript `trim` that can
occur in the data handled here. -/
def isSpaceChar (c : Char) : Bool :=
  c == ' ' || c == '\t' || c == '\n' || c == '\r'

/-- JavaScript `trim`: strip leading and trailing whitespace. -/
def strTrim (s : String) : String :=
  ⟨((s.data.dropWhile isSpaceChar).reverse.dropWhile isSpaceChar).reverse⟩

/-- Split a character list at every occurrence of a separator; the
result always has one more piece than there are separators, so the
empty list yields one empty piece, as JavaScript `split` does. -/
def splitChars (sep : Char) : List Char → List (List Char)
  | [] => [[]]
  | c :: rest =>
    let r := splitChars sep rest
    if c == sep then [] :: r
    else
      match r with
      | [] => [[c]]
      | piece :: pieces => (c :: piece) :: pieces

/-- JavaScript `split` on the comma separator. -/
def strSplitComma (s : String) : List String :=
  (splitChars ',' s.data).map (fun l => ⟨l⟩)

/-- Trim plus lower-casing, the canonical form used by every ban
comparison in `isBanned`. -/
def canon (s : String) : String := strLower (strTrim s)

/-- The comparison helper `eq` inside `isBanned`: null on either side
never matches; otherwise trimmed case-insensitive string equality. -/
def jsEq (a b : Option String) : Bool :=
  match a, b with
  | some a, some b => canon a == canon b
  | _, _ => false

/-- One iteration of the scalar-key loop of `isBanned`: the key has a
non-empty banned array and some banned value matches the attribute. -/
def scalarKeyBanned (attrs : List (String × String)) (banList : BanList) (key : String) : Bool :=
  match getBan banList key with
  | some bannedVals =>
    !bannedVals.isEmpty && bannedVals.any (fun b => jsEq (lookupStr attrs key) (some b))
  | none => false

/-- The token list of a temperament value: split on commas, trim and
lower-case each token, drop empty tokens (the `filter(Boolean)`). -/
def temperamentTokens (s : String) : List String :=
  ((strSplitComma s).map canon).filter (fun t => !(t == ""))

/-- The temperament branch of `isBanned`: some banned value, trimmed
and lower-cased, occurs among the tokens of the temperament attribute. -/
def temperamentBanned (attrs : List (String × String)) (banList : BanList) : Bool :=
  match getBan banList "temperament" with
  | some bannedVals =>
    if !bannedVals.isEmpty then
      let temperament := attrOr (lookupStr attrs "temperament")
      let tokens := temperamentTokens temperament
      bannedVals.any (fun banned => tokens.contains (canon banned))
    else false
  | none => false

/-- `isBanned(item, banList)` from `src/api.js`: a null item is treated
as banned; otherwise the three scalar keys are checked for a trimmed
case-insensitive match and the temperament key for a token match.  The
sequence of early returns is a boolean disjunction. -/
def isBanned (item : Option Item) (banList : BanList) : Bool :=
  match item with
  | none => true
  | some it =>
    let attrs := it.attributes.getD []
    scalarKeyBanned attrs banList "breed" ||
    scalarKeyBanned attrs banList "life_span" ||
    scalarKeyBanned attrs banList "weight" ||
    temperamentBanned attrs banList

/-- An error value thrown in JavaScript, identified by its message. -/
structure JsError where
  message : String
deriving DecidableEq

/-- Outcome of one primary images/search call, as seen by the try block
of the loop: either some error was thrown (transport failure, a
non-ok response turned into a thrown error, or a JSON parse failure), or
a body was obtained; `ok none` models a body that is not an array. -/
inductive PrimaryResult where
  | err (e : JsError)
  | ok (data : Option (List (Option RawImage)))
deriving DecidableEq

/-- Outcome of one enrichment detail call: the fetch or its JSON parse
threw (`err`), the response was falsy or not ok (`notOk`), or a parsed
body was obtained. -/
inductive DetailResult where
  | err
  | notOk
  | ok (detailObj : Option RawImage)
deriving DecidableEq

/-- The network oracle: whether `fetch` exists at all, the outcome of
the primary call of each attempt (attempts numbered from 1), and the
outcome of the enrichment call for a given attempt and batch index. -/
structure Env where
  fetchAvailable : Bool
  primary : Nat → PrimaryResult
  detail : Nat → Nat → DetailResult

/-- The enrichment block for one attribute-incomplete candidate: the
detail response must be ok, its body must normalize, the enriched
record must carry breed data and must pass `isBanned` again; otherwise
the block yields nothing and the scan falls through to the fallback
logic (enrichment errors are swallowed by the inner catch). -/
def enrichAccept (d : DetailResult) (banList : BanList) : Option CanonicalRecord :=
  match d with
  | .ok detailObj =>
    match normalizeImageObj detailObj with
    | some enriched =>
      if enriched.hasBreed && !isBanned (some enriched.toItem) banList then some enriched
      else none
    | none => none
  | .err => none
  | .notOk => none

/-- Result of scanning one batch: the record accepted inside the scan
(directly or via enrichment), the fallback candidate on hand when the
scan ended, and the trace of candidates for which a detail call was
issued. -/
structure ScanResult where
  accepted : Option CanonicalRecord
  fallback : Option CanonicalRecord
  enriches : List CanonicalRecord
deriving DecidableEq

/-- The `for (const imgObj of data)` scan of `fetchRandomDog`: skip
unusable and banned items, return the first non-excluded item with
breed data, try enrichment for non-excluded items without breed data,
and remember the first such item as the fallback. -/
def scanBatch (detail : Nat → DetailResult) (banList : BanList) :
    List (Option RawImage) → Nat → Option CanonicalRecord → ScanResult
  | [], _, fallback => ⟨none, fallback, []⟩
  | imgObj :: rest, idx, fallback =>
    match normalizeImageObj imgObj with
    | none => scanBatch detail banList rest (idx + 1) fallback
    | some normalized =>
      if isBanned (some normalized.toItem) banList then
        scanBatch detail banList rest (idx + 1) fallback
      else if normalized.hasBreed then
        ⟨some normalized, fallback, []⟩
      else
        match enrichAccept (detail idx) banList with
        | some enriched => ⟨some enriched, fallback, [normalized]⟩
        | none =>
          let fallback1 := if fallback.isNone then some normalized else fallback
          let r := scanBatch detail banList rest (idx + 1) fallback1
          ⟨r.accepted, r.fallback, normalized :: r.enriches⟩

/-- How a `fetchRandomDog` invocation settles: with a record, or with a
thrown error. -/
inductive FetchResult where
  | success (rec : CanonicalRecord)
  | error (e : JsError)
deriving DecidableEq

/-- The error thrown after the attempt budget is exhausted. -/
def exhaustionError : JsError :=
  ⟨"No non-banned result found after maximum attempts"⟩

/-- The error thrown when the runtime has no `fetch`. -/
def capabilityError : JsError :=
  ⟨"fetch is not available in this environment"⟩

/-- A settled invocation together with the number of primary calls
issued and the trace of enrichment calls (attempt number paired with
the candidate that triggered the call). -/
structure RunResult where
  result : FetchResult
  primaryCalls : Nat
  detailCalls : List (Nat × CanonicalRecord)
deriving DecidableEq

/-- The `while (attempt < maxAttempts)` loop.  `fuel` is the number of
iterations still permitted, `attempt` the number of attempts already
made, `pc` and `dc` the primary-call count and detail-call trace so
far.  An error thrown by the primary call is rethrown only when the
incremented attempt counter has reached `maxAttempts` (that is, when no
fuel remains); a non-array or empty body abandons the attempt; otherwise
the batch is scanned and the attempt returns the accepted record, else
the fallback, else retries. -/
def fetchLoop (env : Env) (banList : BanList) :
    Nat → Nat → Nat → List (Nat × CanonicalRecord) → RunResult
  | 0, _, pc, dc => ⟨.error exhaustionError, pc, dc⟩
  | fuel + 1, attempt, pc, dc =>
    match env.primary (attempt + 1) with
    | .err e =>
      if fuel = 0 then ⟨.error e, pc + 1, dc⟩
      else fetchLoop env banList fuel (attempt + 1) (pc + 1) dc
    | .ok none => fetchLoop env banList fuel (attempt + 1) (pc + 1) dc
    | .ok (some []) => fetchLoop env banList fuel (attempt + 1) (pc + 1) dc
    | .ok (some (d :: ds)) =>
      let scan := scanBatch (env.detail (attempt + 1)) banList (d :: ds) 0 none
      let dc1 := dc ++ scan.enriches.map (fun r => (attempt + 1, r))
      match scan.accepted with
      | some rec => ⟨.success rec, pc + 1, dc1⟩
      | none =>
        match scan.fallback with
        | some fb => ⟨.success fb, pc + 1, dc1⟩
        | none => fetchLoop env banList fuel (attempt + 1) (pc + 1) dc1

/-- `fetchRandomDog({ banList, maxAttempts })` from `src/api.js`.
`maxAttempts` is an integer; a value of at most zero never enters the
loop.  The capability check precedes everything else. -/
def fetchRandomDog (env : Env) (banList : BanList) (maxAttempts : Int) : RunResult :=
  if env.fetchAvailable then
    fetchLoop env banList maxAttempts.toNat 0 0 []
  else ⟨.error capabilityError, 0, []⟩

/-- The fixed attribute key set of the normalized contract. -/
def fixedAttrKeys : List String := ["breed", "temperament", "life_span", "weight"]

section StepEquations

variable (detail : Nat → DetailResult) (bl : BanList)
variable (imgObj : Option RawImage) (rest : List (Option RawImage))
variable (idx : Nat) (fb : Option CanonicalRecord)

lemma scanBatch_nil : scanBatch detail bl [] idx fb = ⟨none, fb, []⟩ := rfl

lemma scanBatch_cons_unusable (hn : normalizeImageObj imgObj = none) :
    scanBatch detail bl (imgObj :: rest) idx fb = scanBatch detail bl rest (idx + 1) fb := by
  simp [scanBatch, hn]

lemma scanBatch_cons_banned {n : CanonicalRecord} (hn : normalizeImageObj imgObj = some n)
    (hb : isBanned (some n.toItem) bl = true) :
    scanBatch detail bl (imgObj :: rest) idx fb = scanBatch detail bl rest (idx + 1) fb := by
  simp [scanBatch, hn, hb]

lemma scanBatch_cons_direct {n : CanonicalRecord} (hn : normalizeImageObj imgObj = some n)
    (hb : isBanned (some n.toItem) bl = false) (hbr : n.hasBreed = true) :
    scanBatch detail bl (imgObj :: rest) idx fb = ⟨some n, fb, []⟩ := by
  simp [scanBatch, hn, hb, hbr]

lemma scanBatch_cons_enriched {n e : CanonicalRecord} (hn : normalizeImageObj imgObj = some n)
    (hb : isBanned (some n.toItem) bl = false) (hbr : n.hasBreed = false)
    (he : enrichAccept (detail idx) bl = some e) :
    scanBatch detail bl (imgObj :: rest) idx fb = ⟨some e, fb, [n]⟩ := by
  simp [scanBatch, hn, hb, hbr, he]

lemma scanBatch_cons_deferred {n : CanonicalRecord} (hn : normalizeImageObj imgObj = some n)
    (hb : isBanned (some n.toItem) bl = false) (hbr : n.hasBreed = false)
    (he : enrichAccept (detail idx) bl = none) :
    scanBatch detail bl (imgObj :: rest) idx fb =
      let r := scanBatch detail bl rest (idx + 1) (if fb.isNone then some n else fb)
      ⟨r.accepted, r.fallback, n :: r.enriches⟩ := by
  simp [scanBatch, hn, hb, hbr, he]

end StepEquations

/-- Acceptance through enrichment implies breed data plus a fresh
negative ban check. -/
lemma enrichAccept_good (d : DetailResult) (bl : BanList) (r : CanonicalRecord)
    (h : enrichAccept d bl = some r) :
    r.hasBreed = true ∧ isBanned (some r.toItem) bl = false := by
  cases d with
  | err => simp [enrichAccept] at h
  | notOk => simp [enrichAccept] at h
  | ok detailObj =>
    cases hn : normalizeImageObj detailObj with
    | none => simp [enrichAccept, hn] at h
    | some enriched =>
      simp only [enrichAccept, hn] at h
      split at h
      · cases h
        rename_i hc
        simp only [Bool.and_eq_true, Bool.not_eq_true'] at hc
        exact hc
      · cases h

/-- Any record accepted inside a batch scan carries breed data and is
not banned. -/
lemma scan_accepted_good (detail : Nat → DetailResult) (bl : BanList)
    (items : List (Option RawImage)) :
    ∀ idx fb rec, (scanBatch detail bl items idx fb).accepted = some rec →
    rec.hasBreed = true ∧ isBanned (some rec.toItem) bl = false := by
  induction items with
  | nil => intro idx fb rec h; simp [scanBatch_nil] at h
  | cons imgObj rest ih =>
    intro idx fb rec h
    cases hn : normalizeImageObj imgObj with
    | none =>
      rw [scanBatch_cons_unusable detail bl imgObj rest idx fb hn] at h
      exact ih (idx + 1) fb rec h
    | some normalized =>
      cases hb : isBanned (some normalized.toItem) bl with
      | true =>
        rw [scanBatch_cons_banned detail bl imgObj rest idx fb hn hb] at h
        exact ih (idx + 1) fb rec h
      | false =>
        cases hbr : normalized.hasBreed with
        | true =>
          rw [scanBatch_cons_direct detail bl imgObj rest idx fb hn hb hbr] at h
          simp only [Option.some.injEq] at h
          subst h
          exact ⟨hbr, hb⟩
        | false =>
          cases he : enrichAccept (detail idx) bl with
          | some enriched =>
            rw [scanBatch_cons_enriched detail bl imgObj rest idx fb hn hb hbr he] at h
            simp only [Option.some.injEq] at h
            subst h
            exact enrichAccept_good _ _ _ he
          | none =>
            rw [scanBatch_cons_deferred detail bl imgObj rest idx fb hn hb hbr he] at h
            exact ih (idx + 1) _ rec h

/-- A fallback already on hand is never overwritten by the rest of the
scan. -/
lemma scan_fallback_preserved (detail : Nat → DetailResult) (bl : BanList)
    (items : List (Option RawImage)) :
    ∀ idx f, (scanBatch detail bl items idx (some f)).fallback = some f := by
  induction items with
  | nil => intro idx f; simp [scanBatch_nil]
  | cons imgObj rest ih =>
    intro idx f
    cases hn : normalizeImageObj imgObj with
    | none => rw [scanBatch_cons_unusable detail bl imgObj rest idx (some f) hn]; exact ih (idx + 1) f
    | some normalized =>
      cases hb : isBanned (some normalized.toItem) bl with
      | true => rw [scanBatch_cons_banned detail bl imgObj rest idx (some f) hn hb]; exact ih (idx + 1) f
      | false =>
        cases hbr : normalized.hasBreed with
        | true => rw [scanBatch_cons_direct detail bl imgObj rest idx (some f) hn hb hbr]
        | false =>
          cases he : enrichAccept (detail idx) bl with
          | some enriched => rw [scanBatch_cons_enriched detail bl imgObj rest idx (some f) hn hb hbr he]
          | none =>
            rw [scanBatch_cons_deferred detail bl imgObj rest idx (some f) hn hb hbr he]
            simpa using ih (idx + 1) f

/-- Any fallback produced by a scan that started from a good (or empty)
fallback state is a non-banned record without breed data. -/
lemma scan_fallback_good (detail : Nat → DetailResult) (bl : BanList)
    (items : List (Option RawImage)) :
    ∀ idx fb,
    (∀ f0, fb = some f0 → isBanned (some f0.toItem) bl = false ∧ f0.hasBreed = false) →
    ∀ f, (scanBatch detail bl items idx fb).fallback = some f →
    isBanned (some f.toItem) bl = false ∧ f.hasBreed = false := by
  induction items with
  | nil =>
    intro idx fb hfb f h
    rw [scanBatch_nil] at h
    exact hfb f h
  | cons imgObj rest ih =>
    intro idx fb hfb f h
    cases hn : normalizeImageObj imgObj with
    | none =>
      rw [scanBatch_cons_unusable detail bl imgObj rest idx fb hn] at h
      exact ih (idx + 1) fb hfb f h
    | some normalized =>
      cases hb : isBanned (some normalized.toItem) bl with
      | true =>
        rw [scanBatch_cons_banned detail bl imgObj rest idx fb hn hb] at h
        exact ih (idx + 1) fb hfb f h
      | false =>
        cases hbr : normalized.hasBreed with
        | true =>
          rw [scanBatch_cons_direct detail bl imgObj rest idx fb hn hb hbr] at h
          exact hfb f h
        | false =>
          cases he : enrichAccept (detail idx) bl with
          | some enriched =>
            rw [scanBatch_cons_enriched detail bl imgObj rest idx fb hn hb hbr he] at h
            exact hfb f h
          | none =>
            rw [scanBatch_cons_deferred detail bl imgObj rest idx fb hn hb hbr he] at h
            refine ih (idx + 1) _ ?_ f h
            intro f0 hf0
            cases fb with
            | none =>
              simp only [Option.isNone_none, if_pos] at hf0
              cases hf0
              exact ⟨hb, hbr⟩
            | some f1 =>
              simp only [Option.isNone_some, Bool.false_eq_true, if_false] at hf0
              exact hfb f0 hf0

/-- Every candidate for which an enrichment call was issued during a
scan is a non-banned, breed-less normalization of a batch item. -/
lemma scan_enriches_spec (detail : Nat → DetailResult) (bl : BanList)
    (items : List (Option RawImage)) :
    ∀ idx fb rec, rec ∈ (scanBatch detail bl items idx fb).enriches →
    isBanned (some rec.toItem) bl = false ∧ rec.hasBreed = false ∧
    ∃ img, img ∈ items ∧ normalizeImageObj img = some rec := by
  induction items with
  | nil => intro idx fb rec h; simp [scanBatch_nil] at h
  | cons imgObj rest ih =>
    intro idx fb rec h
    cases hn : normalizeImageObj imgObj with
    | none =>
      rw [scanBatch_cons_unusable detail bl imgObj rest idx fb hn] at h
      obtain ⟨h1, h2, img, himg, hni⟩ := ih (idx + 1) fb rec h
      exact ⟨h1, h2, img, List.mem_cons_of_mem _ himg, hni⟩
    | some normalized =>
      cases hb : isBanned (some normalized.toItem) bl with
      | true =>
        rw [scanBatch_cons_banned detail bl imgObj rest idx fb hn hb] at h
        obtain ⟨h1, h2, img, himg, hni⟩ := ih (idx + 1) fb rec h
        exact ⟨h1, h2, img, List.mem_cons_of_mem _ himg, hni⟩
      | false =>
        cases hbr : normalized.hasBreed with
        | true =>
          rw [scanBatch_cons_direct detail bl imgObj rest idx fb hn hb hbr] at h
          simp at h
        | false =>
          cases he : enrichAccept (detail idx) bl with
          | some enriched =>
            rw [scanBatch_cons_enriched detail bl imgObj rest idx fb hn hb hbr he] at h
            simp only [List.mem_singleton] at h
            subst h
            exact ⟨hb, hbr, imgObj, List.mem_cons_self _ _, hn⟩
          | none =>
            rw [scanBatch_cons_deferred detail bl imgObj rest idx fb hn hb hbr he] at h
            simp only [List.mem_cons] at h
            cases h with
            | inl h =>
              subst h
              exact ⟨hb, hbr, imgObj, List.mem_cons_self _ _, hn⟩
            | inr h =>
              obtain ⟨h1, h2, img, himg, hni⟩ := ih (idx + 1) _ rec h
              exact ⟨h1, h2, img, List.mem_cons_of_mem _ himg, hni⟩

/-- A batch whose every item normalizes to a banned record is scanned
without acceptance, without touching the fallback, and without issuing
any enrichment call. -/
lemma scan_allBanned (detail : Nat → DetailResult) (bl : BanList)
    (items : List (Option RawImage)) :
    ∀ idx fb,
    (∀ img, img ∈ items → ∃ r, normalizeImageObj img = some r ∧ isBanned (some r.toItem) bl = true) →
    scanBatch detail bl items idx fb = ⟨none, fb, []⟩ := by
  induction items with
  | nil => intro idx fb _; exact scanBatch_nil detail bl idx fb
  | cons imgObj rest ih =>
    intro idx fb hall
    obtain ⟨r, hn, hb⟩ := hall imgObj (List.mem_cons_self _ _)
    rw [scanBatch_cons_banned detail bl imgObj rest idx fb hn hb]
    exact ih (idx + 1) fb (fun img himg => hall img (List.mem_cons_of_mem _ himg))

/-- The ways one batch item can fail to stop the scan: its
normalization, when usable, is banned, or lacks breed data while the
enrichment attempt at its position yields nothing. -/
def itemSkips (detail : Nat → DetailResult) (bl : BanList) (idx : Nat)
    (img : Option RawImage) : Prop :=
  ∀ r, normalizeImageObj img = some r →
    isBanned (some r.toItem) bl = true ∨
    (r.hasBreed = false ∧ enrichAccept (detail idx) bl = none)

/-- If every item before position `pre.length` merely skips or defers,
the first non-excluded breed-carrying candidate is the one accepted. -/
lemma scan_first_complete (detail : Nat → DetailResult) (bl : BanList)
    (pre : List (Option RawImage)) :
    ∀ idx fb (x : Option RawImage) (post : List (Option RawImage)) (rec : CanonicalRecord),
    (∀ j, (h : j < pre.length) → itemSkips detail bl (idx + j) (pre.get ⟨j, h⟩)) →
    normalizeImageObj x = some rec → isBanned (some rec.toItem) bl = false →
    rec.hasBreed = true →
    (scanBatch detail bl (pre ++ x :: post) idx fb).accepted = some rec := by
  induction pre with
  | nil =>
    intro idx fb x post rec _ hn hb hbr
    rw [List.nil_append, scanBatch_cons_direct detail bl x post idx fb hn hb hbr]
  | cons p pre ih =>
    intro idx fb x post rec hskip hn hb hbr
    have hshift : ∀ j, (h : j < pre.length) → itemSkips detail bl (idx + 1 + j) (pre.get ⟨j, h⟩) := by
      intro j h
      have := hskip (j + 1) (by simpa using Nat.succ_lt_succ h)
      simpa [Nat.add_assoc, Nat.add_comm 1 j] using this
    rw [List.cons_append]
    cases hp : normalizeImageObj p with
    | none =>
      rw [scanBatch_cons_unusable detail bl p (pre ++ x :: post) idx fb hp]
      exact ih (idx + 1) fb x post rec hshift hn hb hbr
    | some r =>
      have h0 := hskip 0 (Nat.succ_pos _) r (by simpa using hp)
      cases hrb : isBanned (some r.toItem) bl with
      | true =>
        rw [scanBatch_cons_banned detail bl p (pre ++ x :: post) idx fb hp hrb]
        exact ih (idx + 1) fb x post rec hshift hn hb hbr
      | false =>
        have h1 : r.hasBreed = false ∧ enrichAccept (detail (idx + 0)) bl = none := by
          cases h0 with
          | inl h0 => rw [hrb] at h0; cases h0
          | inr h0 => exact h0
        have he : enrichAccept (detail idx) bl = none := by simpa using h1.2
        rw [scanBatch_cons_deferred detail bl p (pre ++ x :: post) idx fb hp hrb h1.1 he]
        simpa using ih (idx + 1) _ x post rec hshift hn hb hbr

/-- When a scan started with no fallback ends without acceptance but
with a fallback, that fallback is the first non-banned breed-less
candidate of the batch: every earlier usable item was banned or carried
breed data. -/
lemma scan_fallback_first (detail : Nat → DetailResult) (bl : BanList)
    (items : List (Option RawImage)) :
    ∀ idx f, (scanBatch detail bl items idx none).accepted = none →
    (scanBatch detail bl items idx none).fallback = some f →
    ∃ pre img post, items = pre ++ img :: post ∧ normalizeImageObj img = some f ∧
      isBanned (some f.toItem) bl = false ∧ f.hasBreed = false ∧
      ∀ q, q ∈ pre → ∀ r, normalizeImageObj q = some r →
        isBanned (some r.toItem) bl = true ∨ r.hasBreed = true := by
  induction items with
  | nil => intro idx f _ h; rw [scanBatch_nil] at h; cases h
  | cons imgObj rest ih =>
    intro idx f hacc hfb
    cases hn : normalizeImageObj imgObj with
    | none =>
      rw [scanBatch_cons_unusable detail bl imgObj rest idx none hn] at hacc hfb
      obtain ⟨pre, img, post, heq, h1, h2, h3, h4⟩ := ih (idx + 1) f hacc hfb
      refine ⟨imgObj :: pre, img, post, by rw [heq, List.cons_append], h1, h2, h3, ?_⟩
      intro q hq r hr
      cases hq with
      | head => rw [hn] at hr; cases hr
      | tail _ hq => exact h4 q hq r hr
    | some normalized =>
      cases hb : isBanned (some normalized.toItem) bl with
      | true =>
        rw [scanBatch_cons_banned detail bl imgObj rest idx none hn hb] at hacc hfb
        obtain ⟨pre, img, post, heq, h1, h2, h3, h4⟩ := ih (idx + 1) f hacc hfb
        refine ⟨imgObj :: pre, img, post, by rw [heq, List.cons_append], h1, h2, h3, ?_⟩
        intro q hq r hr
        cases hq with
        | head =>
          rw [hn] at hr
          cases hr
          exact Or.inl hb
        | tail _ hq => exact h4 q hq r hr
      | false =>
        cases hbr : normalized.hasBreed with
        | true =>
          rw [scanBatch_cons_direct detail bl imgObj rest idx none hn hb hbr] at hacc
          cases hacc
        | false =>
          cases he : enrichAccept (detail idx) bl with
          | some enriched =>
            rw [scanBatch_cons_enriched detail bl imgObj rest idx none hn hb hbr he] at hacc
            cases hacc
          | none =>
            rw [scanBatch_cons_deferred detail bl imgObj rest idx none hn hb hbr he] at hfb
            simp only [Option.isNone_none, if_pos] at hfb
            have := scan_fallback_preserved detail bl rest (idx + 1) normalized
            rw [this] at hfb
            cases hfb
            exact ⟨[], imgObj, rest, rfl, hn, hb, hbr, by intro q hq; cases hq⟩

section LoopEquations

variable (env : Env) (bl : BanList) (fuel attempt pc : Nat)
variable (dc : List (Nat × CanonicalRecord))

lemma fetchLoop_zero : fetchLoop env bl 0 attempt pc dc = ⟨.error exhaustionError, pc, dc⟩ := rfl

lemma fetchLoop_err_final {e : JsError} (hp : env.primary (attempt + 1) = .err e) :
    fetchLoop env bl 1 attempt pc dc = ⟨.error e, pc + 1, dc⟩ := by
  simp [fetchLoop, hp]

lemma fetchLoop_err_retry {e : JsError} (hp : env.primary (attempt + 1) = .err e)
    (hf : fuel ≠ 0) :
    fetchLoop env bl (fuel + 1) attempt pc dc = fetchLoop env bl fuel (attempt + 1) (pc + 1) dc := by
  simp [fetchLoop, hp, hf]

lemma fetchLoop_notArray (hp : env.primary (attempt + 1) = .ok none) :
    fetchLoop env bl (fuel + 1) attempt pc dc = fetchLoop env bl fuel (attempt + 1) (pc + 1) dc := by
  simp [fetchLoop, hp]

lemma fetchLoop_emptyBatch (hp : env.primary (attempt + 1) = .ok (some [])) :
    fetchLoop env bl (fuel + 1) attempt pc dc = fetchLoop env bl fuel (attempt + 1) (pc + 1) dc := by
  simp [fetchLoop, hp]

lemma fetchLoop_batch_accepted {d : Option RawImage} {ds : List (Option RawImage)}
    {rec : CanonicalRecord} (hp : env.primary (attempt + 1) = .ok (some (d :: ds)))
    (hacc : (scanBatch (env.detail (attempt + 1)) bl (d :: ds) 0 none).accepted = some rec) :
    fetchLoop env bl (fuel + 1) attempt pc dc =
      ⟨.success rec, pc + 1,
       dc ++ (scanBatch (env.detail (attempt + 1)) bl (d :: ds) 0 none).enriches.map
         (fun r => (attempt + 1, r))⟩ := by
  simp [fetchLoop, hp, hacc]

lemma fetchLoop_batch_fallback {d : Option RawImage} {ds : List (Option RawImage)}
    {fb : CanonicalRecord} (hp : env.primary (attempt + 1) = .ok (some (d :: ds)))
    (hacc : (scanBatch (env.detail (attempt + 1)) bl (d :: ds) 0 none).accepted = none)
    (hfb : (scanBatch (env.detail (attempt + 1)) bl (d :: ds) 0 none).fallback = some fb) :
    fetchLoop env bl (fuel + 1) attempt pc dc =
      ⟨.success fb, pc + 1,
       dc ++ (scanBatch (env.detail (attempt + 1)) bl (d :: ds) 0 none).enriches.map
         (fun r => (attempt + 1, r))⟩ := by
  simp [fetchLoop, hp, hacc, hfb]

lemma fetchLoop_batch_retry {d : Option RawImage} {ds : List (Option RawImage)}
    (hp : env.primary (attempt + 1) = .ok (some (d :: ds)))
    (hacc : (scanBatch (env.detail (attempt + 1)) bl (d :: ds) 0 none).accepted = none)
    (hfb : (scanBatch (env.detail (attempt + 1)) bl (d :: ds) 0 none).fallback = none) :
    fetchLoop env bl (fuel + 1) attempt pc dc =
      fetchLoop env bl fuel (attempt + 1) (pc + 1)
        (dc ++ (scanBatch (env.detail (attempt + 1)) bl (d :: ds) 0 none).enriches.map
          (fun r => (attempt + 1, r))) := by
  simp [fetchLoop, hp, hacc, hfb]

end LoopEquations

/-- The loop issues at most `fuel` further primary calls. -/
lemma loop_primaryCalls_le (env : Env) (bl : BanList) :
    ∀ fuel attempt pc dc, (fetchLoop env bl fuel attempt pc dc).primaryCalls ≤ pc + fuel := by
  intro fuel
  induction fuel with
  | zero => intro attempt pc dc; simp [fetchLoop_zero]
  | succ fuel ih =>
    intro attempt pc dc
    have hstep : pc + 1 + fuel = pc + (fuel + 1) := by omega
    cases hp : env.primary (attempt + 1) with
    | err e =>
      by_cases hf : fuel = 0
      · subst hf
        rw [fetchLoop_err_final env bl attempt pc dc hp]
      · rw [fetchLoop_err_retry env bl fuel attempt pc dc hp hf]
        exact le_of_le_of_eq (ih (attempt + 1) (pc + 1) dc) hstep
    | ok data =>
      match data with
      | none =>
        rw [fetchLoop_notArray env bl fuel attempt pc dc hp]
        exact le_of_le_of_eq (ih (attempt + 1) (pc + 1) dc) hstep
      | some [] =>
        rw [fetchLoop_emptyBatch env bl fuel attempt pc dc hp]
        exact le_of_le_of_eq (ih (attempt + 1) (pc + 1) dc) hstep
      | some (d :: ds) =>
        cases hacc : (scanBatch (env.detail (attempt + 1)) bl (d :: ds) 0 none).accepted with
        | some rec0 =>
          rw [fetchLoop_batch_accepted env bl fuel attempt pc dc hp hacc]
          dsimp only
          omega
        | none =>
          cases hfb : (scanBatch (env.detail (attempt + 1)) bl (d :: ds) 0 none).fallback with
          | some fb0 =>
            rw [fetchLoop_batch_fallback env bl fuel attempt pc dc hp hacc hfb]
            dsimp only
            omega
          | none =>
            rw [fetchLoop_batch_retry env bl fuel attempt pc dc hp hacc hfb]
            exact le_of_le_of_eq (ih (attempt + 1) (pc + 1) _) hstep

/-- Any record the loop settles with has passed the ban check. -/
lemma loop_success_good (env : Env) (bl : BanList) :
    ∀ fuel attempt pc dc rec, (fetchLoop env bl fuel attempt pc dc).result = .success rec →
    isBanned (some rec.toItem) bl = false := by
  intro fuel
  induction fuel with
  | zero =>
    intro attempt pc dc rec h
    rw [fetchLoop_zero] at h
    dsimp only at h
    cases h
  | succ fuel ih =>
    intro attempt pc dc rec h
    cases hp : env.primary (attempt + 1) with
    | err e =>
      by_cases hf : fuel = 0
      · subst hf
        rw [fetchLoop_err_final env bl attempt pc dc hp] at h
        dsimp only at h
        cases h
      · rw [fetchLoop_err_retry env bl fuel attempt pc dc hp hf] at h
        exact ih (attempt + 1) (pc + 1) dc rec h
    | ok data =>
      match data with
      | none =>
        rw [fetchLoop_notArray env bl fuel attempt pc dc hp] at h
        exact ih (attempt + 1) (pc + 1) dc rec h
      | some [] =>
        rw [fetchLoop_emptyBatch env bl fuel attempt pc dc hp] at h
        exact ih (attempt + 1) (pc + 1) dc rec h
      | some (d :: ds) =>
        cases hacc : (scanBatch (env.detail (attempt + 1)) bl (d :: ds) 0 none).accepted with
        | some rec0 =>
          rw [fetchLoop_batch_accepted env bl fuel attempt pc dc hp hacc] at h
          dsimp only at h
          injection h with h
          subst h
          exact (scan_accepted_good _ bl (d :: ds) 0 none _ hacc).2
        | none =>
          cases hfb : (scanBatch (env.detail (attempt + 1)) bl (d :: ds) 0 none).fallback with
          | some fb0 =>
            rw [fetchLoop_batch_fallback env bl fuel attempt pc dc hp hacc hfb] at h
            dsimp only at h
            injection h with h
            subst h
            exact (scan_fallback_good _ bl (d :: ds) 0 none (by intro f0 h0; cases h0) _ hfb).1
          | none =>
            rw [fetchLoop_batch_retry env bl fuel attempt pc dc hp hacc hfb] at h
            exact ih (attempt + 1) (pc + 1) _ rec h

/-- Any error the loop settles with is the exhaustion error or the
error thrown by the primary call of the final attempt. -/
lemma loop_error_src (env : Env) (bl : BanList) :
    ∀ fuel attempt pc dc e, (fetchLoop env bl fuel attempt pc dc).result = .error e →
    e = exhaustionError ∨ (fuel ≠ 0 ∧ env.primary (attempt + fuel) = .err e) := by
  intro fuel
  induction fuel with
  | zero =>
    intro attempt pc dc e h
    rw [fetchLoop_zero] at h
    dsimp only at h
    injection h with h
    exact Or.inl h.symm
  | succ fuel ih =>
    intro attempt pc dc e h
    have hstep : attempt + 1 + fuel = attempt + (fuel + 1) := by omega
    cases hp : env.primary (attempt + 1) with
    | err e0 =>
      by_cases hf : fuel = 0
      · subst hf
        rw [fetchLoop_err_final env bl attempt pc dc hp] at h
        dsimp only at h
        injection h with h
        subst h
        exact Or.inr ⟨Nat.one_ne_zero, hp⟩
      · rw [fetchLoop_err_retry env bl fuel attempt pc dc hp hf] at h
        cases ih (attempt + 1) (pc + 1) dc e h with
        | inl hx => exact Or.inl hx
        | inr hx => exact Or.inr ⟨Nat.succ_ne_zero _, hstep ▸ hx.2⟩
    | ok data =>
      match data with
      | none =>
        rw [fetchLoop_notArray env bl fuel attempt pc dc hp] at h
        cases ih (attempt + 1) (pc + 1) dc e h with
        | inl hx => exact Or.inl hx
        | inr hx => exact Or.inr ⟨Nat.succ_ne_zero _, hstep ▸ hx.2⟩
      | some [] =>
        rw [fetchLoop_emptyBatch env bl fuel attempt pc dc hp] at h
        cases ih (attempt + 1) (pc + 1) dc e h with
        | inl hx => exact Or.inl hx
        | inr hx => exact Or.inr ⟨Nat.succ_ne_zero _, hstep ▸ hx.2⟩
      | some (d :: ds) =>
        cases hacc : (scanBatch (env.detail (attempt + 1)) bl (d :: ds) 0 none).accepted with
        | some rec0 =>
          rw [fetchLoop_batch_accepted env bl fuel attempt pc dc hp hacc] at h
          dsimp only at h
          cases h
        | none =>
          cases hfb : (scanBatch (env.detail (attempt + 1)) bl (d :: ds) 0 none).fallback with
          | some fb0 =>
            rw [fetchLoop_batch_fallback env bl fuel attempt pc dc hp hacc hfb] at h
            dsimp only at h
            cases h
          | none =>
            rw [fetchLoop_batch_retry env bl fuel attempt pc dc hp hacc hfb] at h
            cases ih (attempt + 1) (pc + 1) _ e h with
            | inl hx => exact Or.inl hx
            | inr hx => exact Or.inr ⟨Nat.succ_ne_zero _, hstep ▸ hx.2⟩

/-- When the primary call of every remaining attempt yields a
non-empty batch whose items all normalize to banned records, the loop
consumes all its fuel, issues one primary call per unit of fuel, adds
no detail call, and settles with the exhaustion error. -/
lemma loop_allBanned (env : Env) (bl : BanList) :
    ∀ fuel attempt pc dc,
    (∀ n, attempt < n → n ≤ attempt + fuel →
      ∃ items, env.primary n = .ok (some items) ∧ items ≠ [] ∧
        ∀ img, img ∈ items → ∃ r, normalizeImageObj img = some r ∧
          isBanned (some r.toItem) bl = true) →
    fetchLoop env bl fuel attempt pc dc = ⟨.error exhaustionError, pc + fuel, dc⟩ := by
  intro fuel
  induction fuel with
  | zero => intro attempt pc dc _; simp [fetchLoop_zero]
  | succ fuel ih =>
    intro attempt pc dc hall
    obtain ⟨items, hp, hne, hban⟩ := hall (attempt + 1) (by omega) (by omega)
    match items, hne with
    | d :: ds, _ =>
      have hscan : scanBatch (env.detail (attempt + 1)) bl (d :: ds) 0 none = ⟨none, none, []⟩ :=
        scan_allBanned (env.detail (attempt + 1)) bl (d :: ds) 0 none hban
      have hacc : (scanBatch (env.detail (attempt + 1)) bl (d :: ds) 0 none).accepted = none := by
        rw [hscan]
      have hfb : (scanBatch (env.detail (attempt + 1)) bl (d :: ds) 0 none).fallback = none := by
        rw [hscan]
      rw [fetchLoop_batch_retry env bl fuel attempt pc dc hp hacc hfb, hscan]
      have hrec := ih (attempt + 1) (pc + 1) (dc ++ List.map (fun r => (attempt + 1, r)) [])
        (by
          intro n h1 h2
          exact hall n (Nat.lt_of_succ_lt h1) (by omega))
      simp only [List.map_nil, List.append_nil] at hrec ⊢
      rw [hrec]
      congr 1
      omega

/-- Every recorded detail call was made while scanning the batch that
the primary call of its attempt returned. -/
lemma loop_detailCalls_spec (env : Env) (bl : BanList) :
    ∀ fuel attempt pc dc p, p ∈ (fetchLoop env bl fuel attempt pc dc).detailCalls →
    p ∈ dc ∨ ∃ items, env.primary p.1 = .ok (some items) ∧
      p.2 ∈ (scanBatch (env.detail p.1) bl items 0 none).enriches := by
  intro fuel
  induction fuel with
  | zero =>
    intro attempt pc dc p h
    rw [fetchLoop_zero] at h
    exact Or.inl h
  | succ fuel ih =>
    intro attempt pc dc p h
    cases hp : env.primary (attempt + 1) with
    | err e =>
      by_cases hf : fuel = 0
      · subst hf
        rw [fetchLoop_err_final env bl attempt pc dc hp] at h
        exact Or.inl h
      · rw [fetchLoop_err_retry env bl fuel attempt pc dc hp hf] at h
        exact ih (attempt + 1) (pc + 1) dc p h
    | ok data =>
      match data with
      | none =>
        rw [fetchLoop_notArray env bl fuel attempt pc dc hp] at h
        exact ih (attempt + 1) (pc + 1) dc p h
      | some [] =>
        rw [fetchLoop_emptyBatch env bl fuel attempt pc dc hp] at h
        exact ih (attempt + 1) (pc + 1) dc p h
      | some (d :: ds) =>
        have hsplit : p ∈ dc ++ (scanBatch (env.detail (attempt + 1)) bl (d :: ds) 0 none).enriches.map
            (fun r => (attempt + 1, r)) →
            p ∈ dc ∨ ∃ items, env.primary p.1 = .ok (some items) ∧
              p.2 ∈ (scanBatch (env.detail p.1) bl items 0 none).enriches := by
          intro hmem
          rcases List.mem_append.mp hmem with hmem | hmem
          · exact Or.inl hmem
          · obtain ⟨r, hr, hpr⟩ := List.mem_map.mp hmem
            subst hpr
            exact Or.inr ⟨d :: ds, hp, hr⟩
        cases hacc : (scanBatch (env.detail (attempt + 1)) bl (d :: ds) 0 none).accepted with
        | some rec0 =>
          rw [fetchLoop_batch_accepted env bl fuel attempt pc dc hp hacc] at h
          exact hsplit h
        | none =>
          cases hfb : (scanBatch (env.detail (attempt + 1)) bl (d :: ds) 0 none).fallback with
          | some fb0 =>
            rw [fetchLoop_batch_fallback env bl fuel attempt pc dc hp hacc hfb] at h
            exact hsplit h
          | none =>
            rw [fetchLoop_batch_retry env bl fuel attempt pc dc hp hacc hfb] at h
            rcases ih (attempt + 1) (pc + 1) _ p h with hmem | hx
            · exact hsplit hmem
            · exact Or.inr hx

/-- A record without breed data is settled with only as the fallback of
an attempt whose whole batch was scanned without any acceptance. -/
lemma loop_fallback_src (env : Env) (bl : BanList) :
    ∀ fuel attempt pc dc rec, (fetchLoop env bl fuel attempt pc dc).result = .success rec →
    rec.hasBreed = false →
    ∃ a items, env.primary a = .ok (some items) ∧
      (scanBatch (env.detail a) bl items 0 none).accepted = none ∧
      (scanBatch (env.detail a) bl items 0 none).fallback = some rec := by
  intro fuel
  induction fuel with
  | zero =>
    intro attempt pc dc rec h
    rw [fetchLoop_zero] at h
    dsimp only at h
    cases h
  | succ fuel ih =>
    intro attempt pc dc rec h hnb
    cases hp : env.primary (attempt + 1) with
    | err e =>
      by_cases hf : fuel = 0
      · subst hf
        rw [fetchLoop_err_final env bl attempt pc dc hp] at h
        dsimp only at h
        cases h
      · rw [fetchLoop_err_retry env bl fuel attempt pc dc hp hf] at h
        exact ih (attempt + 1) (pc + 1) dc rec h hnb
    | ok data =>
      match data with
      | none =>
        rw [fetchLoop_notArray env bl fuel attempt pc dc hp] at h
        exact ih (attempt + 1) (pc + 1) dc rec h hnb
      | some [] =>
        rw [fetchLoop_emptyBatch env bl fuel attempt pc dc hp] at h
        exact ih (attempt + 1) (pc + 1) dc rec h hnb
      | some (d :: ds) =>
        cases hacc : (scanBatch (env.detail (attempt + 1)) bl (d :: ds) 0 none).accepted with
        | some rec0 =>
          rw [fetchLoop_batch_accepted env bl fuel attempt pc dc hp hacc] at h
          dsimp only at h
          injection h with h
          subst h
          have := (scan_accepted_good _ bl (d :: ds) 0 none _ hacc).1
          rw [hnb] at this
          cases this
        | none =>
          cases hfb : (scanBatch (env.detail (attempt + 1)) bl (d :: ds) 0 none).fallback with
          | some fb0 =>
            rw [fetchLoop_batch_fallback env bl fuel attempt pc dc hp hacc hfb] at h
            dsimp only at h
            injection h with h
            subst h
            exact ⟨attempt + 1, d :: ds, hp, hacc, hfb⟩
          | none =>
            rw [fetchLoop_batch_retry env bl fuel attempt pc dc hp hacc hfb] at h
            exact ih (attempt + 1) (pc + 1) _ rec h hnb

/-- A negative `isBanned` verdict decomposes into a negative verdict of
each per-key check. -/
lemma isBanned_false_parts (it : Item) (bl : BanList)
    (h : isBanned (some it) bl = false) :
    scalarKeyBanned (it.attributes.getD []) bl "breed" = false ∧
    scalarKeyBanned (it.attributes.getD []) bl "life_span" = false ∧
    scalarKeyBanned (it.attributes.getD []) bl "weight" = false ∧
    temperamentBanned (it.attributes.getD []) bl = false := by
  simp only [isBanned, Bool.or_eq_false_iff] at h
  exact ⟨h.1.1.1, h.1.1.2, h.1.2, h.2⟩

/-- A negative scalar-key check means no banned value of that key
matches the attribute. -/
lemma scalar_not_banned (attrs : List (String × String)) (bl : BanList) (key : String)
    (h : scalarKeyBanned attrs bl key = false) :
    ∀ bs, getBan bl key = some bs → ∀ b, b ∈ bs →
    jsEq (lookupStr attrs key) (some b) = false := by
  intro bs hbs b hb
  rw [scalarKeyBanned, hbs] at h
  cases bs with
  | nil => cases hb
  | cons x xs =>
    simp only [List.isEmpty_cons, Bool.not_false, Bool.true_and, List.any_eq_false] at h
    exact Bool.not_eq_true _ ▸ (h b hb)

/-- A negative temperament check means no banned value of that key,
canonicalized, occurs among the temperament tokens. -/
lemma temperament_not_banned (attrs : List (String × String)) (bl : BanList)
    (h : temperamentBanned attrs bl = false) :
    ∀ bs, getBan bl "temperament" = some bs → ∀ b, b ∈ bs →
    ∀ t, t ∈ temperamentTokens (attrOr (lookupStr attrs "temperament")) → t ≠ canon b := by
  intro bs hbs b hb t ht heq
  rw [temperamentBanned, hbs] at h
  cases bs with
  | nil => cases hb
  | cons x xs =>
    simp only [List.isEmpty_cons, Bool.not_false, if_true, List.any_eq_false] at h
    have hmem : (temperamentTokens (attrOr (lookupStr attrs "temperament"))).contains (canon b) = true := by
      subst heq
      simpa using ht
    exact h b hb hmem

/-! Concrete fixtures used by counterexamples and witnesses. -/

/-- A breed sub-object with a name and some metadata but no temperament. -/
def beagleBreed : Breed :=
  ⟨some "b1", some "Beagle", none, some "10 - 12 years", some ⟨some "20 - 25", none⟩⟩

/-- A raw image carrying the breed above. -/
def beagleImg : RawImage := ⟨some "img1", some "http://x/1.jpg", some [beagleBreed]⟩

/-- The normalization of `beagleImg`. -/
def beagleRec : CanonicalRecord :=
  ⟨some "img1", some "http://x/1.jpg",
   [("breed", "Beagle"), ("temperament", ""), ("life_span", "10 - 12 years"),
    ("weight", "20 - 25")], true⟩

/-- An environment whose every primary call returns a batch holding
only `beagleImg`. -/
def beagleEnv : Env := ⟨true, fun _ => .ok (some [some beagleImg]), fun _ _ => .err⟩

/-- A raw image with no breed data at all. -/
def noBreedImg : RawImage := ⟨some "nb1", some "http://x/2.jpg", none⟩

/-- The normalization of `noBreedImg`. -/
def noBreedRec : CanonicalRecord :=
  ⟨some "nb1", some "http://x/2.jpg",
   [("breed", ""), ("temperament", ""), ("life_span", ""), ("weight", "")], false⟩

/-- An environment whose every primary call returns a batch holding
only `noBreedImg` and whose enrichment calls always fail. -/
def noBreedEnv : Env := ⟨true, fun _ => .ok (some [some noBreedImg]), fun _ _ => .err⟩

/-- An environment whose every primary call throws. -/
def failEnv : Env := ⟨true, fun _ => .err ⟨"network down"⟩, fun _ _ => .err⟩

/-! The claims. -/

/-- C1, counterexample to the claim as stated: with the ban list
banning the empty string under the temperament key, `fetchRandomDog`
returns a record whose temperament value is the empty string; that
value has a comma-separated token (the empty token) equal, after
trimming and case-insensitive comparison, to the banned value, so the
claim that no token of a returned record equals a banned temperament
value fails. -/
theorem C1_counterexample :
    (fetchRandomDog beagleEnv [("temperament", [""])] 8).result = .success beagleRec ∧
    getBan [("temperament", [""])] "temperament" = some [""] ∧
    ([""] : List String) ≠ [] ∧
    "" ∈ strSplitComma (attrOr (lookupStr beagleRec.attributes "temperament")) ∧
    canon "" = canon "" := by
  refine ⟨by decide, by decide, by decide, by decide, rfl⟩

/-- C1 (amended): for every environment, ban list and attempt budget,
a record returned by `fetchRandomDog` has no scalar attribute (breed,
life_span, weight) equal, after trimming and case-insensitive
comparison, to any banned value for that key, and no comma-separated
token of its temperament value that is non-empty after trimming equals
(trimmed, case-insensitive) any banned value under the temperament
key. -/
theorem C1_theorem (env : Env) (banList : BanList) (maxAttempts : Int)
    (rec : CanonicalRecord)
    (h : (fetchRandomDog env banList maxAttempts).result = .success rec) :
    (∀ key, key ∈ (["breed", "life_span", "weight"] : List String) →
      ∀ bs, getBan banList key = some bs → ∀ b, b ∈ bs →
      jsEq (lookupStr rec.attributes key) (some b) = false) ∧
    (∀ bs, getBan banList "temperament" = some bs → ∀ b, b ∈ bs →
      ∀ t, t ∈ temperamentTokens (attrOr (lookupStr rec.attributes "temperament")) →
      t ≠ canon b) := by
  have hgood : isBanned (some rec.toItem) banList = false := by
    unfold fetchRandomDog at h
    by_cases hf : env.fetchAvailable
    · rw [if_pos hf] at h
      exact loop_success_good env banList maxAttempts.toNat 0 0 [] rec h
    · rw [if_neg hf] at h
      dsimp only at h
      cases h
  obtain ⟨h1, h2, h3, h4⟩ := isBanned_false_parts rec.toItem banList hgood
  constructor
  · intro key hkey bs hbs b hb
    have hkey3 : key = "breed" ∨ key = "life_span" ∨ key = "weight" := by
      simpa using hkey
    rcases hkey3 with rfl | rfl | rfl
    · exact scalar_not_banned _ banList "breed" h1 bs hbs b hb
    · exact scalar_not_banned _ banList "life_span" h2 bs hbs b hb
    · exact scalar_not_banned _ banList "weight" h3 bs hbs b hb
  · intro bs hbs b hb t ht
    exact temperament_not_banned _ banList h4 bs hbs b hb t ht

/-- C1, witness: in an environment returning the beagle record and
banning the breed value Poodle, the returned record's breed attribute
does not match the banned value. -/
theorem C1_witness :
    jsEq (lookupStr beagleRec.attributes "breed") (some "Poodle") = false :=
  (C1_theorem beagleEnv [("breed", ["Poodle"])] 8 beagleRec (by decide)).1
    "breed" (by decide) ["Poodle"] (by decide) "Poodle" (by decide)

/-- C2: for every environment, ban list and attempt budget, the number
of primary network calls issued by `fetchRandomDog` is at most
`maxAttempts` (clamped to zero for non-positive budgets), on every
execution path. -/
theorem C2_theorem (env : Env) (banList : BanList) (maxAttempts : Int) :
    (fetchRandomDog env banList maxAttempts).primaryCalls ≤ maxAttempts.toNat := by
  unfold fetchRandomDog
  by_cases hf : env.fetchAvailable
  · rw [if_pos hf]
    simpa using loop_primaryCalls_le env banList maxAttempts.toNat 0 0 []
  · rw [if_neg hf]
    exact Nat.zero_le _

/-- C3: when the primary call of every attempt returns a non-empty
batch whose items all normalize to records excluded by the ban list,
`fetchRandomDog` settles with the exhaustion error after exactly
`maxAttempts` primary calls, with no enrichment call. -/
theorem C3_theorem (env : Env) (banList : BanList) (maxAttempts : Int)
    (hf : env.fetchAvailable = true)
    (h : ∀ n, 1 ≤ n → n ≤ maxAttempts.toNat →
      ∃ items, env.primary n = .ok (some items) ∧ items ≠ [] ∧
        ∀ img, img ∈ items → ∃ r, normalizeImageObj img = some r ∧
          isBanned (some r.toItem) banList = true) :
    fetchRandomDog env banList maxAttempts =
      ⟨.error exhaustionError, maxAttempts.toNat, []⟩ := by
  unfold fetchRandomDog
  rw [hf]
  simp only [if_true]
  have := loop_allBanned env banList maxAttempts.toNat 0 0 []
    (by intro n h1 h2; exact h n h1 (by omega))
  simpa using this

/-- C3, witness: two attempts, each returning only a batch whose single
record has the banned breed, exhaust the budget with exactly two
primary calls. -/
theorem C3_witness :
    fetchRandomDog beagleEnv [("breed", ["beagle"])] 2 =
      ⟨.error exhaustionError, (2 : Int).toNat, []⟩ :=
  C3_theorem beagleEnv [("breed", ["beagle"])] 2 rfl
    (fun _ _ _ => ⟨[some beagleImg], rfl, by decide, by
      intro img himg
      rw [List.mem_singleton] at himg
      subst himg
      exact ⟨beagleRec, by decide, by decide⟩⟩)

/-- C4: every error thrown during a non-final attempt is swallowed by
the loop; an error that escapes `fetchRandomDog` is the exhaustion
error or the error thrown by the primary call of the final attempt
(attempt number `maxAttempts`). -/
theorem C4_theorem (env : Env) (banList : BanList) (maxAttempts : Int) (e : JsError)
    (hf : env.fetchAvailable = true)
    (h : (fetchRandomDog env banList maxAttempts).result = .error e) :
    e = exhaustionError ∨ env.primary maxAttempts.toNat = .err e := by
  unfold fetchRandomDog at h
  rw [hf] at h
  simp only [if_true] at h
  rcases loop_error_src env banList maxAttempts.toNat 0 0 [] e h with hx | hx
  · exact Or.inl hx
  · exact Or.inr (by simpa using hx.2)

/-- C4, witness: with a single attempt whose primary call throws, the
escaping error is the one thrown on the final attempt. -/
theorem C4_witness :
    (⟨"network down"⟩ : JsError) = exhaustionError ∨
      failEnv.primary (Int.toNat 1) = .err ⟨"network down"⟩ :=
  C4_theorem failEnv [] 1 ⟨"network down"⟩ rfl (by decide)

/-- A scalar key whose attribute is absent never matches. -/
lemma scalar_lookup_none (attrs : List (String × String)) (banList : BanList) (key : String)
    (hlk : lookupStr attrs key = none) :
    scalarKeyBanned attrs banList key = false := by
  unfold scalarKeyBanned
  cases hg : getBan banList key with
  | none => rfl
  | some bs => simp [hlk, jsEq]

/-- A scalar key whose attribute is the empty string matches no banned
value that is non-empty after trimming. -/
lemma scalar_lookup_empty (attrs : List (String × String)) (banList : BanList) (key : String)
    (bs : List String) (hlk : lookupStr attrs key = some "")
    (hg : getBan banList key = some bs) (hbs : ∀ b, b ∈ bs → canon b ≠ "") :
    scalarKeyBanned attrs banList key = false := by
  have hany : bs.any (fun b => jsEq (lookupStr attrs key) (some b)) = false := by
    simp only [List.any_eq_false]
    intro b hb
    simp only [hlk, jsEq]
    have hc : canon "" = "" := by decide
    rw [hc]
    exact fun hx => hbs b hb ((eq_of_beq hx).symm)
  simp [scalarKeyBanned, hg, hany]

/-- The temperament key never matches when the temperament attribute is
effectively empty: the empty value has no tokens. -/
lemma temperament_empty (attrs : List (String × String)) (banList : BanList)
    (hlk : attrOr (lookupStr attrs "temperament") = "") :
    temperamentBanned attrs banList = false := by
  unfold temperamentBanned
  cases hg : getBan banList "temperament" with
  | none => rfl
  | some bs =>
    have htok : temperamentTokens "" = [] := by decide
    simp [hlk, htok]

/-- C5, counterexample to the claim as stated: a record whose breed
attribute is the empty string (no attribute data) is excluded by
`isBanned` when the non-empty banned-value set under the breed key
holds the empty string, because trimming makes both sides equal. -/
theorem C5_counterexample :
    isBanned (some ⟨some [("breed", "")]⟩) [("breed", [""])] = true ∧
    lookupStr [("breed", "")] "breed" = some "" ∧
    getBan [("breed", [""])] "breed" = some [""] ∧
    ([""] : List String) ≠ [] := by
  refine ⟨by decide, by decide, by decide, by decide⟩

/-- C5 (amended): absence of an attribute never counts as a match: a
record with absent attributes is never excluded at all; a scalar key
with no attribute entry never matches; and the empty temperament value
never matches.  A scalar key whose value is the empty string fails to
match as long as no banned value for that key trims to the empty
string (an empty value does match an empty-trimming banned value, as
the counterexample shows). -/
theorem C5_theorem :
    (∀ banList : BanList, isBanned (some ⟨none⟩) banList = false) ∧
    (∀ (attrs : List (String × String)) (banList : BanList) (key : String),
      lookupStr attrs key = none → scalarKeyBanned attrs banList key = false) ∧
    (∀ (attrs : List (String × String)) (banList : BanList) (key : String)
      (bs : List String), lookupStr attrs key = some "" →
      getBan banList key = some bs → (∀ b, b ∈ bs → canon b ≠ "") →
      scalarKeyBanned attrs banList key = false) ∧
    (∀ (attrs : List (String × String)) (banList : BanList),
      lookupStr attrs "temperament" = none ∨ lookupStr attrs "temperament" = some "" →
      temperamentBanned attrs banList = false) := by
  refine ⟨?_, scalar_lookup_none, scalar_lookup_empty, ?_⟩
  · intro banList
    unfold isBanned
    have h1 := scalar_lookup_none [] banList "breed" rfl
    have h2 := scalar_lookup_none [] banList "life_span" rfl
    have h3 := scalar_lookup_none [] banList "weight" rfl
    have h4 := temperament_empty [] banList rfl
    simp only [Option.getD_none]
    rw [h1, h2, h3, h4]
    rfl
  · intro attrs banList hlk
    apply temperament_empty
    rcases hlk with hlk | hlk <;> rw [hlk] <;> rfl

/-- C5, witness: a record without a breed entry is not excluded on the
breed key even though a banned breed value exists. -/
theorem C5_witness :
    scalarKeyBanned [("color", "brown")] [("breed", ["Beagle"])] "breed" = false :=
  C5_theorem.2.1 [("color", "brown")] [("breed", ["Beagle"])] "breed" (by decide)

/-- C6: an enrichment detail call is issued only for candidates of the
scanned batch that are not excluded by the ban list and lack breed
data; and any record accepted inside a scan (in particular an enriched
one) carries breed data and passes `isBanned`, re-applied with the
same ban list. -/
theorem C6_theorem :
    (∀ (env : Env) (banList : BanList) (maxAttempts : Int) (a : Nat)
      (rec : CanonicalRecord),
      (a, rec) ∈ (fetchRandomDog env banList maxAttempts).detailCalls →
      isBanned (some rec.toItem) banList = false ∧ rec.hasBreed = false ∧
      ∃ items, env.primary a = .ok (some items) ∧
        ∃ img, img ∈ items ∧ normalizeImageObj img = some rec) ∧
    (∀ (detail : Nat → DetailResult) (banList : BanList)
      (items : List (Option RawImage)) (idx : Nat) (fb : Option CanonicalRecord)
      (rec : CanonicalRecord),
      (scanBatch detail banList items idx fb).accepted = some rec →
      rec.hasBreed = true ∧ isBanned (some rec.toItem) banList = false) := by
  constructor
  · intro env banList maxAttempts a rec hmem
    unfold fetchRandomDog at hmem
    by_cases hf : env.fetchAvailable
    · rw [if_pos hf] at hmem
      rcases loop_detailCalls_spec env banList maxAttempts.toNat 0 0 [] (a, rec) hmem with
        hx | ⟨items, hp, he⟩
      · cases hx
      · obtain ⟨hb, hbr, img, himg, hn⟩ := scan_enriches_spec _ banList items 0 none rec he
        exact ⟨hb, hbr, items, hp, img, himg, hn⟩
    · rw [if_neg hf] at hmem
      dsimp only at hmem
      cases hmem
  · intro detail banList items idx fb rec h
    exact scan_accepted_good detail banList items idx fb rec h

/-- C6, witness: the one detail call recorded when scanning a batch
holding only a breed-less candidate was issued for a candidate that is
not excluded by the (empty) ban list. -/
theorem C6_witness :
    isBanned (some noBreedRec.toItem) [] = false :=
  (C6_theorem.1 noBreedEnv [] 8 1 noBreedRec (by decide)).1

/-- C7: within one batch, (1) when every earlier item skips or defers,
the first non-excluded candidate with breed data is the one accepted;
(2) a fallback once recorded is never overwritten by the rest of the
scan; (3) a scan that ends without acceptance returns as fallback the
first non-excluded breed-less candidate of the batch; and (4) a
breed-less record is settled with only as the fallback of an attempt
whose entire batch was scanned without any acceptance. -/
theorem C7_theorem :
    (∀ (detail : Nat → DetailResult) (banList : BanList)
      (pre : List (Option RawImage)) (fb : Option CanonicalRecord)
      (x : Option RawImage) (post : List (Option RawImage)) (rec : CanonicalRecord),
      (∀ j, (h : j < pre.length) → itemSkips detail banList j (pre.get ⟨j, h⟩)) →
      normalizeImageObj x = some rec → isBanned (some rec.toItem) banList = false →
      rec.hasBreed = true →
      (scanBatch detail banList (pre ++ x :: post) 0 fb).accepted = some rec) ∧
    (∀ (detail : Nat → DetailResult) (banList : BanList)
      (items : List (Option RawImage)) (idx : Nat) (f : CanonicalRecord),
      (scanBatch detail banList items idx (some f)).fallback = some f) ∧
    (∀ (detail : Nat → DetailResult) (banList : BanList)
      (items : List (Option RawImage)) (f : CanonicalRecord),
      (scanBatch detail banList items 0 none).accepted = none →
      (scanBatch detail banList items 0 none).fallback = some f →
      ∃ pre img post, items = pre ++ img :: post ∧ normalizeImageObj img = some f ∧
        isBanned (some f.toItem) banList = false ∧ f.hasBreed = false ∧
        ∀ q, q ∈ pre → ∀ r, normalizeImageObj q = some r →
          isBanned (some r.toItem) banList = true ∨ r.hasBreed = true) ∧
    (∀ (env : Env) (banList : BanList) (maxAttempts : Int) (rec : CanonicalRecord),
      env.fetchAvailable = true →
      (fetchRandomDog env banList maxAttempts).result = .success rec →
      rec.hasBreed = false →
      ∃ a items, env.primary a = .ok (some items) ∧
        (scanBatch (env.detail a) banList items 0 none).accepted = none ∧
        (scanBatch (env.detail a) banList items 0 none).fallback = some rec) := by
  refine ⟨?_, ?_, ?_, ?_⟩
  · intro detail banList pre fb x post rec hskip hn hb hbr
    exact scan_first_complete detail banList pre 0 fb x post rec
      (by simpa using hskip) hn hb hbr
  · intro detail banList items idx f
    exact scan_fallback_preserved detail banList items idx f
  · intro detail banList items f hacc hfb
    exact scan_fallback_first detail banList items 0 f hacc hfb
  · intro env banList maxAttempts rec hf h hnb
    unfold fetchRandomDog at h
    rw [hf] at h
    simp only [if_true] at h
    exact loop_fallback_src env banList maxAttempts.toNat 0 0 [] rec h hnb

/-- C7, witness: the four parts at concrete batches — a singleton batch
whose candidate has breed data is accepted; an existing fallback
survives; the breed-less candidate of a singleton batch is the fallback
and is the settled record of its attempt. -/
theorem C7_witness :
    (scanBatch (fun _ => DetailResult.err) [] ([] ++ some beagleImg :: []) 0 none).accepted =
      some beagleRec ∧
    (scanBatch (fun _ => DetailResult.err) [] [] 0 (some noBreedRec)).fallback =
      some noBreedRec ∧
    (∃ pre img post, ([some noBreedImg] : List (Option RawImage)) = pre ++ img :: post ∧
      normalizeImageObj img = some noBreedRec ∧
      isBanned (some noBreedRec.toItem) [] = false ∧ noBreedRec.hasBreed = false ∧
      ∀ q, q ∈ pre → ∀ r, normalizeImageObj q = some r →
        isBanned (some r.toItem) [] = true ∨ r.hasBreed = true) ∧
    (∃ a items, noBreedEnv.primary a = .ok (some items) ∧
      (scanBatch (noBreedEnv.detail a) [] items 0 none).accepted = none ∧
      (scanBatch (noBreedEnv.detail a) [] items 0 none).fallback = some noBreedRec) := by
  refine ⟨?_, ?_, ?_, ?_⟩
  · exact C7_theorem.1 (fun _ => DetailResult.err) [] [] none (some beagleImg) [] beagleRec
      (fun j h => absurd h (Nat.not_lt_zero j)) (by decide) (by decide) (by decide)
  · exact C7_theorem.2.1 (fun _ => DetailResult.err) [] [] 0 noBreedRec
  · exact C7_theorem.2.2.1 (fun _ => DetailResult.err) [] [some noBreedImg] noBreedRec
      (by decide) (by decide)
  · exact C7_theorem.2.2.2 noBreedEnv [] 8 noBreedRec rfl (by decide) (by decide)

/-- C8: every non-null record produced by `normalizeImageObj` has an
attributes object whose key set is exactly the fixed set breed,
temperament, life_span, weight, in which missing source metadata is
the empty string and never an absent key — both when the raw item
carried no descriptive sub-object at all and when the selected
sub-object lacks individual fields. -/
theorem C8_theorem (img : RawImage) (rec : CanonicalRecord)
    (h : normalizeImageObj (some img) = some rec) :
    rec.attributes.map Prod.fst = fixedAttrKeys ∧
    (∀ k, k ∈ fixedAttrKeys → ∃ v, lookupStr rec.attributes k = some v) ∧
    (img.breeds.bind List.head? = none →
      rec.attributes = fixedAttrKeys.map (fun k => (k, ""))) ∧
    (∀ b, img.breeds.bind List.head? = some b →
      (b.name = none → lookupStr rec.attributes "breed" = some "") ∧
      (b.temperament = none → lookupStr rec.attributes "temperament" = some "") ∧
      (b.life_span = none → lookupStr rec.attributes "life_span" = some "")) := by
  cases hbo : img.breeds.bind List.head? with
  | none =>
    simp only [normalizeImageObj, hbo] at h
    injection h with h
    subst h
    refine ⟨rfl, ?_, fun _ => rfl, ?_⟩
    · intro k hk
      have hk4 : k = "breed" ∨ k = "temperament" ∨ k = "life_span" ∨ k = "weight" := by
        simpa [fixedAttrKeys] using hk
      rcases hk4 with rfl | rfl | rfl | rfl
      · exact ⟨"", rfl⟩
      · exact ⟨"", rfl⟩
      · exact ⟨"", rfl⟩
      · exact ⟨"", rfl⟩
    · intro b hb
      cases hb
  | some b0 =>
    simp only [normalizeImageObj, hbo] at h
    injection h with h
    subst h
    refine ⟨rfl, ?_, ?_, ?_⟩
    · intro k hk
      have hk4 : k = "breed" ∨ k = "temperament" ∨ k = "life_span" ∨ k = "weight" := by
        simpa [fixedAttrKeys] using hk
      rcases hk4 with rfl | rfl | rfl | rfl
      · exact ⟨attrOr b0.name, rfl⟩
      · exact ⟨attrOr b0.temperament, rfl⟩
      · exact ⟨attrOr b0.life_span, rfl⟩
      · exact ⟨weightStr b0.weight, rfl⟩
    · intro hcontra
      cases hcontra
    · intro b hb
      injection hb with hb
      subst hb
      refine ⟨?_, ?_, ?_⟩
      · intro hname
        simp [lookupStr, hname, attrOr]
      · intro htemp
        simp [lookupStr, htemp, attrOr]
      · intro hlife
        simp [lookupStr, hlife, attrOr]

/-- C8, witness: the normalization of a raw image without any breed
sub-object still carries exactly the four fixed attribute keys. -/
theorem C8_witness : noBreedRec.attributes.map Prod.fst = fixedAttrKeys :=
  (C8_theorem noBreedImg noBreedRec (by decide)).1

/-- C9: with a non-positive `maxAttempts`, `fetchRandomDog` issues no
network call at all — zero primary calls and an empty detail-call
trace — and settles with the exhaustion error. -/
theorem C9_theorem (env : Env) (banList : BanList) (maxAttempts : Int)
    (hf : env.fetchAvailable = true) (hm : maxAttempts ≤ 0) :
    fetchRandomDog env banList maxAttempts = ⟨.error exhaustionError, 0, []⟩ := by
  unfold fetchRandomDog
  rw [hf]
  simp only [if_true]
  rw [Int.toNat_of_nonpos hm]
  exact fetchLoop_zero env banList 0 0 []

/-- C9, witness: a budget of minus three settles immediately with the
exhaustion error and no calls, although the environment would throw on
any primary call. -/
theorem C9_witness :
    fetchRandomDog failEnv [] (-3) = ⟨.error exhaustionError, 0, []⟩ :=
  C9_theorem failEnv [] (-3) rfl (by decide)

/-- C10: the `isBanned` verdict depends on the ban list only through
its entries under the four keys breed, temperament, life_span and
weight; two ban lists agreeing there are indistinguishable, whatever
entries they hold under other keys. -/
theorem C10_theorem (item : Option Item) (b1 b2 : BanList)
    (h : ∀ k, k ∈ fixedAttrKeys → getBan b1 k = getBan b2 k) :
    isBanned item b1 = isBanned item b2 := by
  have hb := h "breed" (by simp [fixedAttrKeys])
  have ht := h "temperament" (by simp [fixedAttrKeys])
  have hl := h "life_span" (by simp [fixedAttrKeys])
  have hw := h "weight" (by simp [fixedAttrKeys])
  cases item with
  | none => rfl
  | some it =>
    unfold isBanned scalarKeyBanned temperamentBanned
    rw [hb, ht, hl, hw]

/-- C10, witness: two ban lists sharing only their breed entry while
differing on color and size entries produce the same verdict. -/
theorem C10_witness :
    isBanned (some ⟨some [("breed", "x")]⟩) [("color", ["red"]), ("breed", ["a"])] =
      isBanned (some ⟨some [("breed", "x")]⟩) [("breed", ["a"]), ("size", ["big"])] :=
  C10_theorem (some ⟨some [("breed", "x")]⟩) [("color", ["red"]), ("breed", ["a"])]
    [("breed", ["a"]), ("size", ["big"])] (by decide)
